import Mathlib

/-!
Shallow embedding of the serial test-harness logic of
`UnitTests/TestScripts/TestScript.py` (the canonical, full-session variant;
`ReadSerial.py` is a near-duplicate noted where it differs).

Text is modelled as lists of Unicode code points (`List Nat`); a byte read
from the serial port is a `Nat`.  Case-insensitive matching models the
Python `(?i)` flag restricted to ASCII letters, which is exact for every pattern the
scripts compile (all pattern letters are ASCII).
-/

/-- ASCII lower-casing of one code point, the case folding used by the
`(?i)` regex flags in `readSerialData` (TestScript.py lines 112-117). -/
def lower (v : Nat) : Nat :=
  if 65 ≤ v ∧ v ≤ 90 then v + 32 else v

/-- Lower-case every code point of a string. -/
def lowerList (l : List Nat) : List Nat :=
  l.map lower

/-- Code points of a Lean string literal, used to transcribe the Python
string literals of the source. -/
def strCodes (s : String) : List Nat :=
  s.data.map Char.toNat

/-- The regex character class `[A-Za-z0-9]` of `testReg`/`passTestReg`. -/
def isAlnumNat (v : Nat) : Bool :=
  decide ((65 ≤ v ∧ v ≤ 90) ∨ (97 ≤ v ∧ v ≤ 122) ∨ (48 ≤ v ∧ v ≤ 57))

/-- The regex character class `[0-9]` of `passTestReg`. -/
def isDigitNat (v : Nat) : Bool :=
  decide (48 ≤ v ∧ v ≤ 57)

/-- Match a literal pattern (given already lower-cased) case-insensitively
against the front of `s`; return the remainder on success. -/
def matchLit : List Nat → List Nat → Option (List Nat)
  | [], s => some s
  | _ :: _, [] => none
  | p :: ps, c :: cs => if lower c = p then matchLit ps cs else none

/-- Greedily consume the maximal run of code points satisfying `p`
(the `*` part of a regex `+` repetition); return the remainder. -/
def matchStar (p : Nat → Bool) : List Nat → List Nat
  | [] => []
  | c :: cs => if p c then matchStar p cs else c :: cs

/-- Greedy `+` repetition: at least one code point satisfying `p`.
For the patterns in the source the repeated class never overlaps the literal
that follows it, so greedy matching without backtracking is equivalent to
the regex semantics. -/
def matchPlus (p : Nat → Bool) : List Nat → Option (List Nat)
  | [] => none
  | c :: cs => if p c then some (matchStar p cs) else none

/-- Holds when the list does not begin with a code point satisfying `p`. -/
def headNoMatch (p : Nat → Bool) : List Nat → Bool
  | [] => true
  | c :: _ => ! p c

/-- Behaviour of the Python `re.search` call for a literal pattern: the
pattern occurs case-insensitively anywhere in the line. -/
def searchCI (pat : List Nat) : List Nat → Bool
  | [] => (matchLit pat []).isSome
  | c :: cs => (matchLit pat (c :: cs)).isSome || searchCI pat cs

/-- The anchored pattern `(?i)(TEST)\(([A-Za-z0-9]+), ([A-Za-z0-9]+)`
(`testReg`, TestScript.py line 112), applied with `re.match`. -/
def testRegChain (line : List Nat) : Option (List Nat) :=
  Option.bind (matchLit (strCodes ("test(")) line) (fun r1 =>
    Option.bind (matchPlus isAlnumNat r1) (fun r2 =>
      Option.bind (matchLit (strCodes (", ")) r2) (fun r3 =>
        matchPlus isAlnumNat r3)))

def testRegMatch (line : List Nat) : Bool :=
  (testRegChain line).isSome

/-- The anchored pattern
`(?i)(TEST)\(([A-Za-z0-9]+), ([A-Za-z0-9]+)(\) - )([0-9]+)( ms)`
(`passTestReg`, TestScript.py line 113), applied with `re.match`. -/
def passRegChain (line : List Nat) : Option (List Nat) :=
  Option.bind (matchLit (strCodes ("test(")) line) (fun r1 =>
    Option.bind (matchPlus isAlnumNat r1) (fun r2 =>
      Option.bind (matchLit (strCodes (", ")) r2) (fun r3 =>
        Option.bind (matchPlus isAlnumNat r3) (fun r4 =>
          Option.bind (matchLit (strCodes (") - ")) r4) (fun r5 =>
            Option.bind (matchPlus isDigitNat r5) (fun r6 =>
              matchLit (strCodes (" ms")) r6))))))

def passTestRegMatch (line : List Nat) : Bool :=
  (passRegChain line).isSome

/-- The five outcomes of classifying one line. -/
inductive Classification where
  | testPass
  | testStart
  | errorOrFail
  | completion
  | unclassified
deriving DecidableEq

/-- The classification chain of `readSerialData`
(TestScript.py lines 147-161): `passTestReg.match`, `testReg.match`,
`errorReg.search or failReg.search`, `finishReg.search or finishReg2.search`,
else unclassified — first match wins. -/
def classify (line : List Nat) : Classification :=
  if passTestRegMatch line then .testPass
  else if testRegMatch line then .testStart
  else if searchCI (strCodes ("error")) line || searchCI (strCodes ("fail")) line then
    .errorOrFail
  else if searchCI (strCodes ("tests complete")) line ||
      searchCI (strCodes ("tests finished")) line then
    .completion
  else .unclassified

/-- The mutable locals of the session loop of `readSerialData`
(TestScript.py lines 119-124).  `testDetailsText` is the variable created by
the typo on line 170 (`testDetailsText = ""` where the accumulating buffer is
named `testDetailsTxt`); it is modelled as initially empty and is never read.
The `count` local, used only by commented-out logging, is omitted. -/
structure SessionState where
  didError : Bool
  testDetailsPrev : Bool
  testDetails : Bool
  testDetailsTxt : List Nat
  testDetailsText : List Nat
  testRunning : Bool
deriving DecidableEq

/-- Initial state of the session loop (TestScript.py lines 81, 119-124). -/
def initState : SessionState :=
  { didError := false
    testDetailsPrev := false
    testDetails := false
    testDetailsTxt := []
    testDetailsText := []
    testRunning := true }

/-- One pass of the classification body of the session loop on a completed
line (TestScript.py lines 147-171). -/
def processLine (st : SessionState) (line : List Nat) : SessionState :=
  let s1 :=
    match classify line with
    | .testPass => { st with testDetails := false }
    | .testStart => { st with testDetails := true }
    | .errorOrFail => { st with didError := true }
    | .completion => { st with testRunning := false }
    | .unclassified => { st with testDetails := true }
  let s2 :=
    if s1.testDetails then
      { s1 with testDetailsTxt := s1.testDetailsTxt ++ 10 :: line }
    else s1
  let s3 :=
    if s1.testDetailsPrev && ! s1.testDetails then
      { s2 with testDetailsText := [] }
    else s2
  { s3 with testDetailsPrev := s3.testDetails }

/-- Fold of `processLine` over a sequence of lines. -/
def processLines (st : SessionState) (lines : List (List Nat)) : SessionState :=
  lines.foldl processLine st

/-- One return of `ser.read(1)` inside the line-assembly loop
(TestScript.py lines 129-143): the wall-clock time `t` at which the read
returned, and the byte it produced (`none` models an empty read). -/
structure ReadEvent where
  t : Nat
  b : Option Nat
deriving DecidableEq

/-- Decoding a single byte as UTF-8 text: succeeds exactly on ASCII. -/
def decodeByte (v : Nat) : Option Nat :=
  if v < 128 then some v else none

/-- The sentinel text appended on an inactivity timeout
(TestScript.py line 133). -/
def sentinel : List Nat :=
  strCodes ("Serial Read Timeout")

/-- Result of the inner line-assembly loop (TestScript.py lines 129-143). -/
inductive ReadLineRes where
  | gotLine (l : List Nat) (tLast : Nat) (rest : List ReadEvent)
  | timedOut (l : List Nat)
  | decodeFail (v : Nat)
  | starved
deriving DecidableEq

/-- The inner line-assembly loop.  Per read: first the inactivity check
`time.time() - timeOfLastReading > 600`, which appends the sentinel text to
the partial line and aborts; then the newline test (which decodes the byte
and so can raise); empty reads are skipped without updating the time of last
reading; any other byte updates it and is appended.  `starved` models the
stream never producing another read, leaving the loop blocked. -/
def readLine : List ReadEvent → List Nat → Nat → ReadLineRes
  | [], _, _ => .starved
  | e :: rest, line, tLast =>
    if e.t - tLast > 600 then .timedOut (line ++ sentinel)
    else
      match e.b with
      | none => readLine rest line tLast
      | some v =>
        match decodeByte v with
        | none => .decodeFail v
        | some c =>
          if c = 10 then .gotLine line tLast rest
          else readLine rest (line ++ [c]) e.t

/-- Outcome of the session loop of `readSerialData` after the port is open
(TestScript.py lines 126-178).  `finished` carries the returned exit code,
the final loop state, the lines processed, and whether `ser.close()` ran;
`decodeFailed` models the undecodable-byte exception propagating out of the
function; `stuck` models a forever-blocking read (or exhausted fuel). -/
inductive SessionOutcome where
  | finished (code : Nat) (fin : SessionState) (lines : List (List Nat)) (closed : Bool)
  | decodeFailed (v : Nat) (closed : Bool)
  | stuck
deriving DecidableEq

/-- The state mutation performed inside the inactivity-timeout branch before
the line is classified (TestScript.py lines 134-135). -/
def timeoutState (st : SessionState) : SessionState :=
  { st with didError := true, testRunning := false }

/-- Record one processed line in a session outcome. -/
def consLine (l : List Nat) : SessionOutcome → SessionOutcome
  | .finished c fin ls cl => .finished c fin (l :: ls) cl
  | o => o

/-- The outer `while testRunning` loop of `readSerialData`, the final
`ser.close()` and the returned exit code (TestScript.py lines 126-178).
`fuel` bounds the number of loop iterations modelled; every claim below is
settled with adequate fuel.  On a timeout the synthesized line is still
printed and classified before the loop condition is re-read, exactly as in
the source; on a decode error the exception propagates, skipping
`ser.close()`. -/
def runSession (fuel : Nat) (events : List ReadEvent) (st : SessionState)
    (tLast : Nat) : SessionOutcome :=
  if st.testRunning = false then
    .finished (if st.didError then 7 else 0) st [] true
  else
    match fuel with
    | 0 => .stuck
    | f + 1 =>
      match readLine events [] tLast with
      | .starved => .stuck
      | .decodeFail v => .decodeFailed v false
      | .timedOut l =>
          consLine l (runSession f [] (processLine (timeoutState st) l) tLast)
      | .gotLine l tL rest =>
          consLine l (runSession f rest (processLine st l) tL)

/-- Exit code of a finished session outcome. -/
def outcomeCode : SessionOutcome → Option Nat
  | .finished c _ _ _ => some c
  | _ => none

/-- Lines processed by a finished session outcome. -/
def outcomeLines : SessionOutcome → Option (List (List Nat))
  | .finished _ _ ls _ => some ls
  | _ => none

/-- Result of one `ser.open()` attempt inside the retry loop
(TestScript.py lines 93-105). -/
inductive OpenOutcome where
  | success
  | permDenied
  | otherFail
deriving DecidableEq

/-- Result of the connection retry loop: `opened`/`failed` carry the number
of `time.sleep(1)` backoffs performed; `failed` carries the exit code
returned by `readSerialData`.  `starved` models an unending sequence of
attempts not covered by the modelled outcomes. -/
inductive OpenResult where
  | opened (sleeps : Nat)
  | failed (code : Nat) (sleeps : Nat)
  | starved
deriving DecidableEq

/-- The `while not ser.is_open` retry loop (TestScript.py lines 92-105):
`PermissionError` returns 9 at once; any other failure bumps the attempt
counter, returns 8 once the counter passes 10, and otherwise sleeps one
second and retries.  In the `ReadSerial.py` variant the counter check reads
the misspelt name `connectionAttemps` (an unbound-name fault) and the
exhausted-retries code is 2; this models the canonical `TestScript.py`. -/
def openLoop : List OpenOutcome → Nat → Nat → OpenResult
  | [], _, _ => .starved
  | .success :: _, _, s => .opened s
  | .permDenied :: _, _, s => .failed 9 s
  | .otherFail :: rest, attempts, s =>
    if attempts + 1 > 10 then .failed 8 s
    else openLoop rest (attempts + 1) (s + 1)

/-- The retry loop entered with `connectionAttempts = 1`
(TestScript.py line 92). -/
def openSerial (outcomes : List OpenOutcome) : OpenResult :=
  openLoop outcomes 1 0

/-- Module-level `baudRate` (TestScript.py line 38). -/
def baudRate : Nat := 115200

/-- The baud rate `readSerialData` configures on the port
(`ser.baudrate = baudRate`, TestScript.py line 85) for a run of `main`
invoked with `--baud` = `argsBaud`.  `main` executes `baudRate = args.baud`
(line 259) without a `global` declaration, so Python binds a function-local
name and the module-level `baudRate` read by `readSerialData` is unchanged. -/
def sessionBaud (_argsBaud : Nat) : Nat :=
  baudRate

/-- The four-line serial exchange of the worked example in the spec. -/
def demoLines : List (List Nat) :=
  [strCodes ("TEST(Motor, Init"), strCodes ("some detail"),
    strCodes ("TEST(Motor, Init) - 12 ms"), strCodes ("Unit tests Complete")]

/-- Encode text lines as instantaneous serial reads: each code point as one
byte followed by a newline byte, all at time 0. -/
def eventsOfLines (ls : List (List Nat)) : List ReadEvent :=
  (ls.map (fun l => l.map (fun v => ReadEvent.mk 0 (some v)) ++ [ReadEvent.mk 0 (some 10)])).flatten

/-- Declarative reading of `re.search` with a literal pattern: the pattern
occurs somewhere in the line up to ASCII case. -/
def ContainsCI (pat line : List Nat) : Prop :=
  ∃ l w r, line = l ++ w ++ r ∧ lowerList w = pat

/-- Declarative reading of `testReg` applied with `re.match`: the line
begins (anchored at position 0) with `TEST(` up to case, then one or more
alphanumerics, then `", "`, then one or more alphanumerics, with arbitrary
trailing text. -/
def StartShape (line : List Nat) : Prop :=
  ∃ t a b rest, lowerList t = strCodes ("test(") ∧
    a ≠ [] ∧ (∀ v ∈ a, isAlnumNat v = true) ∧
    b ≠ [] ∧ (∀ v ∈ b, isAlnumNat v = true) ∧
    line = t ++ (a ++ (strCodes (", ") ++ (b ++ rest)))

/-- Declarative reading of `passTestReg` applied with `re.match`: the line
begins with `TEST(<alnum>, <alnum>) - <digits> ms` up to case, with
arbitrary trailing text. -/
def PassShape (line : List Nat) : Prop :=
  ∃ t a b n m rest, lowerList t = strCodes ("test(") ∧
    a ≠ [] ∧ (∀ v ∈ a, isAlnumNat v = true) ∧
    b ≠ [] ∧ (∀ v ∈ b, isAlnumNat v = true) ∧
    n ≠ [] ∧ (∀ v ∈ n, isDigitNat v = true) ∧
    lowerList m = strCodes (" ms") ∧
    line = t ++ (a ++ (strCodes (", ") ++ (b ++ (strCodes (") - ") ++ (n ++ (m ++ rest))))))

theorem lower_eq_nonletter {v w : Nat} (h : lower v = w) (hw : w < 97) : v = w := by
  unfold lower at h
  split at h <;> omega

theorem lowerList_eq_nonletters : ∀ {m w : List Nat}, lowerList m = w →
    (∀ v ∈ w, v < 97) → m = w := by
  intro m
  induction m with
  | nil =>
    intro w h _
    simpa [lowerList] using h
  | cons c cs ih =>
    intro w h hw
    cases w with
    | nil => simp [lowerList] at h
    | cons x xs =>
      simp only [lowerList, List.map_cons, List.cons.injEq] at h
      obtain ⟨h1, h2⟩ := h
      have hx : c = x := lower_eq_nonletter h1 (hw x (by simp))
      have hrest : cs = xs := ih h2 (fun v hv => hw v (by simp [hv]))
      simp [hx, hrest]

theorem matchLit_some_iff : ∀ (pat s r : List Nat),
    matchLit pat s = some r ↔ ∃ x, s = x ++ r ∧ lowerList x = pat := by
  intro pat
  induction pat with
  | nil =>
    intro s r
    simp only [matchLit, Option.some.injEq]
    constructor
    · intro h
      exact ⟨[], by simp [h], rfl⟩
    · rintro ⟨x, hs, hx⟩
      have hxnil : x = [] := by simpa [lowerList] using hx
      simpa [hxnil] using hs
  | cons p ps ih =>
    intro s r
    cases s with
    | nil =>
      simp only [matchLit]
      constructor
      · intro h; cases h
      · rintro ⟨x, hs, hx⟩
        cases x with
        | nil => simp [lowerList] at hx
        | cons a as => simp at hs
    | cons c cs =>
      simp only [matchLit]
      by_cases h : lower c = p
      · rw [if_pos h, ih]
        constructor
        · rintro ⟨y, hy, hly⟩
          refine ⟨c :: y, by simp [hy], ?_⟩
          simp only [lowerList, List.map_cons] at hly ⊢
          rw [h, hly]
        · rintro ⟨x, hx, hlx⟩
          cases x with
          | nil => simp [lowerList] at hlx
          | cons a as =>
            simp only [List.cons_append, List.cons.injEq] at hx
            simp only [lowerList, List.map_cons, List.cons.injEq] at hlx
            exact ⟨as, hx.2, hlx.2⟩
      · rw [if_neg h]
        constructor
        · intro hh; cases hh
        · rintro ⟨x, hx, hlx⟩
          cases x with
          | nil => simp [lowerList] at hlx
          | cons a as =>
            simp only [List.cons_append, List.cons.injEq] at hx
            simp only [lowerList, List.map_cons, List.cons.injEq] at hlx
            exact absurd (hx.1 ▸ hlx.1) h

theorem matchLit_isSome_iff (pat s : List Nat) :
    (matchLit pat s).isSome = true ↔ ∃ w r, s = w ++ r ∧ lowerList w = pat := by
  rw [Option.isSome_iff_exists]
  constructor
  · rintro ⟨r, hr⟩
    obtain ⟨w, hw, hlw⟩ := (matchLit_some_iff pat s r).mp hr
    exact ⟨w, r, hw, hlw⟩
  · rintro ⟨w, r, hw, hlw⟩
    exact ⟨r, (matchLit_some_iff pat s r).mpr ⟨w, hw, hlw⟩⟩

theorem matchStar_split (p : Nat → Bool) : ∀ s : List Nat,
    ∃ a, s = a ++ matchStar p s ∧ (∀ c ∈ a, p c = true) ∧
      headNoMatch p (matchStar p s) = true := by
  intro s
  induction s with
  | nil => exact ⟨[], rfl, by simp, rfl⟩
  | cons c cs ih =>
    by_cases h : p c
    · obtain ⟨a, ha, hall, hhead⟩ := ih
      refine ⟨c :: a, ?_, ?_, ?_⟩
      · simp only [matchStar, h, if_true, List.cons_append]
        exact congrArg _ ha
      · intro x hx
        rcases List.mem_cons.mp hx with h1 | h2
        · exact h1 ▸ h
        · exact hall x h2
      · simpa [matchStar, h] using hhead
    · have h' : p c = false := by simpa using h
      exact ⟨[], by simp [matchStar, h'], by simp, by simp [matchStar, h', headNoMatch]⟩

theorem matchStar_of_split (p : Nat → Bool) : ∀ (a r : List Nat),
    (∀ c ∈ a, p c = true) → headNoMatch p r = true → matchStar p (a ++ r) = r := by
  intro a
  induction a with
  | nil =>
    intro r _ hr
    cases r with
    | nil => rfl
    | cons c cs =>
      have hc : p c = false := by simpa [headNoMatch] using hr
      simp [matchStar, hc]
  | cons x xs ih =>
    intro r hall hr
    have hx : p x = true := hall x (by simp)
    simp only [List.cons_append, matchStar, hx, if_true]
    exact ih r (fun c hc => hall c (by simp [hc])) hr

theorem matchPlus_some (p : Nat → Bool) {s r : List Nat} (h : matchPlus p s = some r) :
    ∃ a, a ≠ [] ∧ (∀ c ∈ a, p c = true) ∧ s = a ++ r ∧ headNoMatch p r = true := by
  cases s with
  | nil => simp [matchPlus] at h
  | cons c cs =>
    by_cases hc : p c
    · simp only [matchPlus, hc, if_true, Option.some.injEq] at h
      obtain ⟨a, ha, hall, hhead⟩ := matchStar_split p cs
      subst h
      refine ⟨c :: a, by simp, ?_, by simp [← ha], hhead⟩
      intro x hx
      rcases List.mem_cons.mp hx with h1 | h2
      · exact h1 ▸ hc
      · exact hall x h2
    · simp [matchPlus, hc] at h

theorem matchPlus_of_split (p : Nat → Bool) {a r : List Nat} (hne : a ≠ [])
    (hall : ∀ c ∈ a, p c = true) (hr : headNoMatch p r = true) :
    matchPlus p (a ++ r) = some r := by
  cases a with
  | nil => exact absurd rfl hne
  | cons x xs =>
    have hx : p x = true := hall x (by simp)
    simp only [List.cons_append, matchPlus, hx, if_true, Option.some.injEq]
    exact matchStar_of_split p xs r (fun c hc => hall c (by simp [hc])) hr

theorem searchCI_iff (pat : List Nat) : ∀ line, searchCI pat line = true ↔ ContainsCI pat line := by
  intro line
  induction line with
  | nil =>
    simp only [searchCI, matchLit_isSome_iff, ContainsCI]
    constructor
    · rintro ⟨w, r, hw, hlw⟩
      exact ⟨[], w, r, by simpa using hw, hlw⟩
    · rintro ⟨l, w, r, hw, hlw⟩
      have h0 := hw.symm
      simp only [List.append_eq_nil] at h0
      obtain ⟨⟨hl, hww⟩, hr⟩ := h0
      exact ⟨w, r, by simp [hww, hr], hlw⟩
  | cons c cs ih =>
    simp only [searchCI, Bool.or_eq_true, matchLit_isSome_iff, ih, ContainsCI]
    constructor
    · rintro (⟨w, r, hw, hlw⟩ | ⟨l, w, r, hw, hlw⟩)
      · exact ⟨[], w, r, by simpa using hw, hlw⟩
      · exact ⟨c :: l, w, r, by simp [hw], hlw⟩
    · rintro ⟨l, w, r, hw, hlw⟩
      cases l with
      | nil => exact Or.inl ⟨w, r, by simpa using hw, hlw⟩
      | cons x xs =>
        simp only [List.cons_append, List.cons.injEq] at hw
        exact Or.inr ⟨xs, w, r, hw.2, hlw⟩

theorem strCodes_comma : strCodes (", ") = [44, 32] := by decide

theorem strCodes_closeDash : strCodes (") - ") = [41, 32, 45, 32] := by decide

theorem testRegMatch_iff (line : List Nat) : testRegMatch line = true ↔ StartShape line := by
  constructor
  · intro h
    rw [testRegMatch, Option.isSome_iff_exists] at h
    obtain ⟨r4, hr4⟩ := h
    unfold testRegChain at hr4
    simp only [Option.bind_eq_some] at hr4
    obtain ⟨r1, h1, r2, h2, r3, h3, h4⟩ := hr4
    obtain ⟨t, ht, hlt⟩ := (matchLit_some_iff _ line r1).mp h1
    obtain ⟨a, hane, haall, ha, -⟩ := matchPlus_some isAlnumNat h2
    obtain ⟨m, hm, hlm⟩ := (matchLit_some_iff _ r2 r3).mp h3
    obtain ⟨b, hbne, hball, hb, -⟩ := matchPlus_some isAlnumNat h4
    have hm' : m = strCodes (", ") := by
      refine lowerList_eq_nonletters hlm ?_
      rw [strCodes_comma]
      intro v hv
      rcases List.mem_cons.mp hv with h1 | h2
      · omega
      · simp at h2; omega
    exact ⟨t, a, b, r4, hlt, hane, haall, hbne, hball,
      by rw [ht, ha, hm, hb, hm']⟩
  · rintro ⟨t, a, b, rest, hlt, hane, haall, hbne, hball, hline⟩
    obtain ⟨v, b2, rfl⟩ : ∃ v b2, b = v :: b2 := by
      cases b with
      | nil => exact absurd rfl hbne
      | cons v b2 => exact ⟨v, b2, rfl⟩
    have hv : isAlnumNat v = true := hball v (by simp)
    have h1 : matchLit (strCodes ("test(")) line =
        some (a ++ (strCodes (", ") ++ (v :: b2 ++ rest))) :=
      (matchLit_some_iff _ _ _).mpr ⟨t, hline, hlt⟩
    have h2 : matchPlus isAlnumNat (a ++ (strCodes (", ") ++ (v :: b2 ++ rest))) =
        some (strCodes (", ") ++ (v :: b2 ++ rest)) := by
      refine matchPlus_of_split isAlnumNat hane haall ?_
      rw [strCodes_comma]
      rfl
    have h3 : matchLit (strCodes (", ")) (strCodes (", ") ++ (v :: b2 ++ rest)) =
        some (v :: b2 ++ rest) :=
      (matchLit_some_iff _ _ _).mpr ⟨strCodes (", "), rfl, by decide⟩
    rw [testRegMatch, Option.isSome_iff_exists]
    refine ⟨matchStar isAlnumNat (b2 ++ rest), ?_⟩
    unfold testRegChain
    simp only [Option.bind_eq_some]
    exact ⟨_, h1, _, h2, _, h3, by simp [matchPlus, hv]⟩

theorem strCodes_ms : strCodes (" ms") = [32, 109, 115] := by decide

theorem passTestRegMatch_iff (line : List Nat) : passTestRegMatch line = true ↔ PassShape line := by
  constructor
  · intro h
    rw [passTestRegMatch, Option.isSome_iff_exists] at h
    obtain ⟨r7, hr7⟩ := h
    unfold passRegChain at hr7
    simp only [Option.bind_eq_some] at hr7
    obtain ⟨r1, h1, r2, h2, r3, h3, r4, h4, r5, h5, r6, h6, h7⟩ := hr7
    obtain ⟨t, ht, hlt⟩ := (matchLit_some_iff _ line r1).mp h1
    obtain ⟨a, hane, haall, ha, -⟩ := matchPlus_some isAlnumNat h2
    obtain ⟨m1, hm1, hlm1⟩ := (matchLit_some_iff _ r2 r3).mp h3
    obtain ⟨b, hbne, hball, hb, -⟩ := matchPlus_some isAlnumNat h4
    obtain ⟨m2, hm2, hlm2⟩ := (matchLit_some_iff _ r4 r5).mp h5
    obtain ⟨n, hnne, hnall, hn, -⟩ := matchPlus_some isDigitNat h6
    obtain ⟨m3, hm3, hlm3⟩ := (matchLit_some_iff _ r6 r7).mp h7
    have hc1 : m1 = strCodes (", ") := lowerList_eq_nonletters hlm1 (by decide)
    have hc2 : m2 = strCodes (") - ") := lowerList_eq_nonletters hlm2 (by decide)
    exact ⟨t, a, b, n, m3, r7, hlt, hane, haall, hbne, hball, hnne, hnall, hlm3,
      by rw [ht, ha, hm1, hb, hm2, hn, hm3, hc1, hc2]⟩
  · rintro ⟨t, a, b, n, m, rest, hlt, hane, haall, hbne, hball, hnne, hnall, hlm, hline⟩
    obtain ⟨x, m2, rfl⟩ : ∃ x m2, m = x :: m2 := by
      cases m with
      | nil => rw [strCodes_ms] at hlm; simp [lowerList] at hlm
      | cons x m2 => exact ⟨x, m2, rfl⟩
    have hx : x = 32 := by
      have := hlm
      rw [strCodes_ms] at this
      simp only [lowerList, List.map_cons, List.cons.injEq] at this
      exact lower_eq_nonletter this.1 (by omega)
    subst hx
    have h1 : matchLit (strCodes ("test(")) line =
        some (a ++ (strCodes (", ") ++ (b ++ (strCodes (") - ") ++
          (n ++ (32 :: m2 ++ rest)))))) :=
      (matchLit_some_iff _ _ _).mpr ⟨t, hline, hlt⟩
    have h2 : matchPlus isAlnumNat (a ++ (strCodes (", ") ++ (b ++ (strCodes (") - ") ++
        (n ++ (32 :: m2 ++ rest)))))) =
        some (strCodes (", ") ++ (b ++ (strCodes (") - ") ++ (n ++ (32 :: m2 ++ rest))))) := by
      refine matchPlus_of_split isAlnumNat hane haall ?_
      rw [strCodes_comma]
      rfl
    have h3 : matchLit (strCodes (", ")) (strCodes (", ") ++ (b ++ (strCodes (") - ") ++
        (n ++ (32 :: m2 ++ rest))))) =
        some (b ++ (strCodes (") - ") ++ (n ++ (32 :: m2 ++ rest)))) :=
      (matchLit_some_iff _ _ _).mpr ⟨strCodes (", "), rfl, by decide⟩
    have h4 : matchPlus isAlnumNat (b ++ (strCodes (") - ") ++ (n ++ (32 :: m2 ++ rest)))) =
        some (strCodes (") - ") ++ (n ++ (32 :: m2 ++ rest))) := by
      refine matchPlus_of_split isAlnumNat hbne hball ?_
      rw [strCodes_closeDash]
      rfl
    have h5 : matchLit (strCodes (") - ")) (strCodes (") - ") ++ (n ++ (32 :: m2 ++ rest))) =
        some (n ++ (32 :: m2 ++ rest)) :=
      (matchLit_some_iff _ _ _).mpr ⟨strCodes (") - "), rfl, by decide⟩
    have h6 : matchPlus isDigitNat (n ++ (32 :: m2 ++ rest)) =
        some (32 :: m2 ++ rest) :=
      matchPlus_of_split isDigitNat hnne hnall (by rfl)
    have h7 : matchLit (strCodes (" ms")) (32 :: m2 ++ rest) = some rest :=
      (matchLit_some_iff _ _ _).mpr ⟨32 :: m2, rfl, hlm⟩
    rw [passTestRegMatch, Option.isSome_iff_exists]
    refine ⟨rest, ?_⟩
    unfold passRegChain
    simp only [Option.bind_eq_some]
    exact ⟨_, h1, _, h2, _, h3, _, h4, _, h5, _, h6, h7⟩

theorem processLine_didError (st : SessionState) (l : List Nat) :
    (processLine st l).didError = (st.didError || decide (classify l = .errorOrFail)) := by
  cases h : classify l <;>
    simp [processLine, h, apply_ite (SessionState.didError)]

theorem processLine_testRunning (st : SessionState) (l : List Nat) :
    (processLine st l).testRunning = (st.testRunning && ! decide (classify l = .completion)) := by
  cases h : classify l <;>
    simp [processLine, h, apply_ite (SessionState.testRunning)]

theorem processLine_error_effect (st : SessionState) (l : List Nat)
    (h : classify l = .errorOrFail) :
    (processLine st l).didError = true ∧
    (processLine st l).testDetails = st.testDetails ∧
    (processLine st l).testRunning = st.testRunning := by
  refine ⟨?_, ?_, ?_⟩ <;>
    simp [processLine, h, apply_ite (SessionState.didError),
      apply_ite (SessionState.testDetails), apply_ite (SessionState.testRunning)]

theorem processLine_txt (st : SessionState) (l : List Nat) :
    (processLine st l).testDetailsTxt = st.testDetailsTxt ∨
    (processLine st l).testDetailsTxt = st.testDetailsTxt ++ 10 :: l := by
  cases h : classify l <;>
    simp [processLine, h, apply_ite (SessionState.testDetailsTxt)]

theorem processLine_txt_grows (st : SessionState) (l : List Nat) :
    ∃ t2, (processLine st l).testDetailsTxt = st.testDetailsTxt ++ t2 := by
  rcases processLine_txt st l with h | h
  · exact ⟨[], by simp [h]⟩
  · exact ⟨10 :: l, h⟩

theorem processLines_cons (st : SessionState) (l : List Nat) (ls : List (List Nat)) :
    processLines st (l :: ls) = processLines (processLine st l) ls := rfl

theorem processLines_didError_mono : ∀ (lines : List (List Nat)) (st : SessionState),
    st.didError = true → (processLines st lines).didError = true := by
  intro lines
  induction lines with
  | nil => intro st h; exact h
  | cons l ls ih =>
    intro st h
    rw [processLines_cons]
    exact ih _ (by rw [processLine_didError, h]; rfl)

theorem processLines_txt_grows : ∀ (lines : List (List Nat)) (st : SessionState),
    ∃ t2, (processLines st lines).testDetailsTxt = st.testDetailsTxt ++ t2 := by
  intro lines
  induction lines with
  | nil => intro st; exact ⟨[], by simp [processLines]⟩
  | cons l ls ih =>
    intro st
    rw [processLines_cons]
    obtain ⟨t1, ht1⟩ := processLine_txt_grows st l
    obtain ⟨t2, ht2⟩ := ih (processLine st l)
    exact ⟨t1 ++ t2, by rw [ht2, ht1, List.append_assoc]⟩

theorem processLine_testRunning_mono (st : SessionState) (l : List Nat)
    (h : st.testRunning = false) : (processLine st l).testRunning = false := by
  rw [processLine_testRunning, h]
  rfl

theorem consLine_finished {l : List Nat} {o : SessionOutcome} {c : Nat}
    {fin : SessionState} {ls : List (List Nat)} {cl : Bool}
    (h : consLine l o = .finished c fin ls cl) :
    ∃ ls2, ls = l :: ls2 ∧ o = .finished c fin ls2 cl := by
  cases o with
  | finished c2 fin2 ls2 cl2 =>
    simp only [consLine, SessionOutcome.finished.injEq] at h
    exact ⟨ls2, by simp [h.1, h.2.1, h.2.2.1.symm, h.2.2.2]⟩
  | decodeFailed v cl2 => simp [consLine] at h
  | stuck => simp [consLine] at h

theorem consLine_decodeFailed {l : List Nat} {o : SessionOutcome} {v : Nat} {cl : Bool}
    (h : consLine l o = .decodeFailed v cl) : o = .decodeFailed v cl := by
  cases o with
  | finished c2 fin2 ls2 cl2 => simp [consLine] at h
  | decodeFailed v2 cl2 => simpa [consLine] using h
  | stuck => simp [consLine] at h

theorem runSession_closed : ∀ (fuel : Nat) (events : List ReadEvent) (st : SessionState)
    (tLast : Nat),
    (∀ c fin ls cl, runSession fuel events st tLast = .finished c fin ls cl → cl = true) ∧
    (∀ v cl, runSession fuel events st tLast = .decodeFailed v cl → cl = false) := by
  intro fuel
  induction fuel with
  | zero =>
    intro events st tLast
    constructor
    · intro c fin ls cl h
      unfold runSession at h
      split at h
      · injection h with h1 h2 h3 h4
        exact h4.symm
      · cases h
    · intro v cl h
      unfold runSession at h
      split at h
      · cases h
      · cases h
  | succ f ih =>
    intro events st tLast
    constructor
    · intro c fin ls cl h
      unfold runSession at h
      split at h
      · injection h with h1 h2 h3 h4
        exact h4.symm
      · cases hr : readLine events [] tLast <;> rw [hr] at h <;> simp only [] at h
        case gotLine l tL rest =>
          obtain ⟨ls2, hls, hrec⟩ := consLine_finished h
          exact (ih rest (processLine st l) tL).1 c fin ls2 cl hrec
        case timedOut l =>
          obtain ⟨ls2, hls, hrec⟩ := consLine_finished h
          exact (ih [] (processLine (timeoutState st) l) tLast).1 c fin ls2 cl hrec
        case decodeFail v => cases h
        case starved => cases h
    · intro v cl h
      unfold runSession at h
      split at h
      · cases h
      · cases hr : readLine events [] tLast <;> rw [hr] at h <;> simp only [] at h
        case gotLine l tL rest =>
          exact (ih rest (processLine st l) tL).2 v cl (consLine_decodeFailed h)
        case timedOut l =>
          exact (ih [] (processLine (timeoutState st) l) tLast).2 v cl (consLine_decodeFailed h)
        case decodeFail v2 =>
          injection h with h1 h2
          exact h2.symm
        case starved => cases h
  
theorem runSession_code : ∀ (fuel : Nat) (events : List ReadEvent) (st : SessionState)
    (tLast : Nat) (c : Nat) (fin : SessionState) (ls : List (List Nat)) (cl : Bool),
    runSession fuel events st tLast = .finished c fin ls cl →
    c = (if fin.didError = true then 7 else 0) := by
  intro fuel
  induction fuel with
  | zero =>
    intro events st tLast c fin ls cl h
    unfold runSession at h
    split at h
    · injection h with h1 h2 h3 h4
      subst h2
      exact h1.symm
    · cases h
  | succ f ih =>
    intro events st tLast c fin ls cl h
    unfold runSession at h
    split at h
    · injection h with h1 h2 h3 h4
      subst h2
      exact h1.symm
    · cases hr : readLine events [] tLast <;> rw [hr] at h <;> simp only [] at h
      case gotLine l tL rest =>
        obtain ⟨ls2, hls, hrec⟩ := consLine_finished h
        exact ih rest (processLine st l) tL c fin ls2 cl hrec
      case timedOut l =>
        obtain ⟨ls2, hls, hrec⟩ := consLine_finished h
        exact ih [] (processLine (timeoutState st) l) tLast c fin ls2 cl hrec
      case decodeFail v => cases h
      case starved => cases h

theorem readLine_timedOut_ends_sentinel : ∀ (events : List ReadEvent) (line0 : List Nat)
    (tLast : Nat) (l : List Nat),
    readLine events line0 tLast = .timedOut l → ∃ pre, l = pre ++ sentinel := by
  intro events
  induction events with
  | nil =>
    intro line0 tLast l h
    simp [readLine] at h
  | cons e rest ih =>
    intro line0 tLast l h
    unfold readLine at h
    split at h
    · injection h with h1
      exact ⟨line0, h1.symm⟩
    · cases hb : e.b <;> rw [hb] at h <;> simp only [] at h
      case none => exact ih _ _ _ h
      case some v =>
        cases hd : decodeByte v <;> rw [hd] at h <;> simp only [] at h
        case none => cases h
        case some c =>
          split at h
          · cases h
          · exact ih _ _ _ h

theorem readLine_timeout_first (e : ReadEvent) (rest : List ReadEvent) (tLast : Nat)
    (h : e.t - tLast > 600) : readLine (e :: rest) [] tLast = .timedOut sentinel := by
  simp [readLine, h]

theorem runSession_timeout (fuel : Nat) (events : List ReadEvent) (st : SessionState)
    (tLast : Nat) (l : List Nat) (hr : st.testRunning = true)
    (ht : readLine events [] tLast = .timedOut l) :
    runSession (fuel + 1) events st tLast =
      .finished 7 (processLine (timeoutState st) l) [l] true ∧
    (processLine (timeoutState st) l).didError = true := by
  have hde : (processLine (timeoutState st) l).didError = true := by
    rw [processLine_didError]
    simp [timeoutState]
  have hru : (processLine (timeoutState st) l).testRunning = false :=
    processLine_testRunning_mono _ _ (by simp [timeoutState])
  have hinner : runSession fuel [] (processLine (timeoutState st) l) tLast =
      .finished 7 (processLine (timeoutState st) l) [] true := by
    unfold runSession
    rw [if_pos hru]
    simp [hde]
  refine ⟨?_, hde⟩
  unfold runSession
  rw [if_neg (by simp [hr]), ht]
  simp only []
  rw [hinner]
  rfl

theorem processLines_append (st : SessionState) (l1 l2 : List (List Nat)) :
    processLines st (l1 ++ l2) = processLines (processLines st l1) l2 := by
  simp [processLines, List.foldl_append]

theorem openLoop_skip_failures : ∀ (pre : List OpenOutcome) (attempts s : Nat)
    (rest : List OpenOutcome), (∀ o ∈ pre, o = .otherFail) →
    attempts + pre.length ≤ 10 →
    openLoop (pre ++ .success :: rest) attempts s = .opened (s + pre.length) := by
  intro pre
  induction pre with
  | nil =>
    intro attempts s rest _ _
    simp [openLoop]
  | cons o pre2 ih =>
    intro attempts s rest hall hle
    have ho : o = .otherFail := hall o (by simp)
    subst ho
    simp only [List.cons_append, openLoop, List.append_eq]
    rw [if_neg (by simp only [List.length_cons] at hle; omega)]
    rw [ih (attempts + 1) (s + 1) rest (fun o2 ho2 => hall o2 (by simp [ho2]))
      (by simp only [List.length_cons] at hle ⊢; omega)]
    simp only [List.length_cons, OpenResult.opened.injEq]
    omega

/-- Claim C1: `classify` evaluates the patterns in the fixed priority order
TestPass, TestStart, ErrorOrFail, Completion, Unclassified, with the first
match winning; the TestPass and TestStart patterns are matched anchored at
the start of the line (`PassShape` and `StartShape` demand a decomposition
that starts at position 0), while the error/fail substrings and the
completion phrases are searched anywhere in the line (`ContainsCI`), all
case-insensitively. -/
theorem classifyPriorityOrder (line : List Nat) :
    (classify line = .testPass ↔ PassShape line) ∧
    (classify line = .testStart ↔ ¬ PassShape line ∧ StartShape line) ∧
    (classify line = .errorOrFail ↔ ¬ PassShape line ∧ ¬ StartShape line ∧
      (ContainsCI (strCodes ("error")) line ∨ ContainsCI (strCodes ("fail")) line)) ∧
    (classify line = .completion ↔ ¬ PassShape line ∧ ¬ StartShape line ∧
      ¬ (ContainsCI (strCodes ("error")) line ∨ ContainsCI (strCodes ("fail")) line) ∧
      (ContainsCI (strCodes ("tests complete")) line ∨
        ContainsCI (strCodes ("tests finished")) line)) ∧
    (classify line = .unclassified ↔ ¬ PassShape line ∧ ¬ StartShape line ∧
      ¬ (ContainsCI (strCodes ("error")) line ∨ ContainsCI (strCodes ("fail")) line) ∧
      ¬ (ContainsCI (strCodes ("tests complete")) line ∨
        ContainsCI (strCodes ("tests finished")) line)) := by
  have hp := passTestRegMatch_iff line
  have hs := testRegMatch_iff line
  have he := searchCI_iff (strCodes ("error")) line
  have hf := searchCI_iff (strCodes ("fail")) line
  have hc := searchCI_iff (strCodes ("tests complete")) line
  have hd := searchCI_iff (strCodes ("tests finished")) line
  cases hpb : passTestRegMatch line
  case true =>
    have hP : PassShape line := hp.mp hpb
    have hcl : classify line = .testPass := by simp [classify, hpb]
    rw [hcl]
    exact ⟨iff_of_true rfl hP,
      iff_of_false (by decide) (fun h => h.1 hP),
      iff_of_false (by decide) (fun h => h.1 hP),
      iff_of_false (by decide) (fun h => h.1 hP),
      iff_of_false (by decide) (fun h => h.1 hP)⟩
  case false =>
    have hP : ¬ PassShape line := fun hh => by simp [hp.mpr hh] at hpb
    cases hsb : testRegMatch line
    case true =>
      have hS : StartShape line := hs.mp hsb
      have hcl : classify line = .testStart := by simp [classify, hpb, hsb]
      rw [hcl]
      exact ⟨iff_of_false (by decide) (fun h => hP h),
        iff_of_true rfl ⟨hP, hS⟩,
        iff_of_false (by decide) (fun h => h.2.1 hS),
        iff_of_false (by decide) (fun h => h.2.1 hS),
        iff_of_false (by decide) (fun h => h.2.1 hS)⟩
    case false =>
      have hS : ¬ StartShape line := fun hh => by simp [hs.mpr hh] at hsb
      cases heb : (searchCI (strCodes ("error")) line || searchCI (strCodes ("fail")) line)
      case true =>
        have hE : ContainsCI (strCodes ("error")) line ∨
            ContainsCI (strCodes ("fail")) line := by
          rcases Bool.or_eq_true_iff.mp heb with h | h
          · exact Or.inl (he.mp h)
          · exact Or.inr (hf.mp h)
        have hcl : classify line = .errorOrFail := by simp [classify, hpb, hsb, heb]
        rw [hcl]
        exact ⟨iff_of_false (by decide) (fun h => hP h),
          iff_of_false (by decide) (fun h => hS h.2),
          iff_of_true rfl ⟨hP, hS, hE⟩,
          iff_of_false (by decide) (fun h => h.2.2.1 hE),
          iff_of_false (by decide) (fun h => h.2.2.1 hE)⟩
      case false =>
        have hE : ¬ (ContainsCI (strCodes ("error")) line ∨
            ContainsCI (strCodes ("fail")) line) := by
          rintro (h | h)
          · rw [← he] at h
            simp [h] at heb
          · rw [← hf] at h
            simp [h] at heb
        cases hcb : (searchCI (strCodes ("tests complete")) line ||
            searchCI (strCodes ("tests finished")) line)
        case true =>
          have hC : ContainsCI (strCodes ("tests complete")) line ∨
              ContainsCI (strCodes ("tests finished")) line := by
            rcases Bool.or_eq_true_iff.mp hcb with h | h
            · exact Or.inl (hc.mp h)
            · exact Or.inr (hd.mp h)
          have hcl : classify line = .completion := by simp [classify, hpb, hsb, heb, hcb]
          rw [hcl]
          exact ⟨iff_of_false (by decide) (fun h => hP h),
            iff_of_false (by decide) (fun h => hS h.2),
            iff_of_false (by decide) (fun h => hE h.2.2),
            iff_of_true rfl ⟨hP, hS, hE, hC⟩,
            iff_of_false (by decide) (fun h => h.2.2.2 hC)⟩
        case false =>
          have hC : ¬ (ContainsCI (strCodes ("tests complete")) line ∨
              ContainsCI (strCodes ("tests finished")) line) := by
            rintro (h | h)
            · rw [← hc] at h
              simp [h] at hcb
            · rw [← hd] at h
              simp [h] at hcb
          have hcl : classify line = .unclassified := by
            simp [classify, hpb, hsb, heb, hcb]
          rw [hcl]
          exact ⟨iff_of_false (by decide) (fun h => hP h),
            iff_of_false (by decide) (fun h => hS h.2),
            iff_of_false (by decide) (fun h => hE h.2.2),
            iff_of_false (by decide) (fun h => hC h.2.2.2),
            iff_of_true rfl ⟨hP, hS, hE, hC⟩⟩

/-- Claim C2 is false as stated: the line `TEST(Motor, fail` contains the
substring `fail` yet classifies as TestStart, not ErrorOrFail, because the
anchored test-start pattern is checked before the error/fail search. -/
theorem errorFailPriorityCounterexample :
    searchCI (strCodes ("fail")) (strCodes ("TEST(Motor, fail")) = true ∧
    testRegMatch (strCodes ("TEST(Motor, fail")) = true ∧
    classify (strCodes ("TEST(Motor, fail")) = .testStart ∧
    classify (strCodes ("TEST(Motor, fail")) ≠ .errorOrFail := by decide

/-- Claim C2 (amended): every line that contains `error` or `fail` as a
substring in any letter case and does not match the anchored TestPass or
TestStart patterns classifies as ErrorOrFail; when a test-start or
test-pass pattern matches at the start of the line, that classification
wins instead. -/
theorem errorFailWinsWhenUnanchored (line : List Nat)
    (h : searchCI (strCodes ("error")) line = true ∨
      searchCI (strCodes ("fail")) line = true)
    (hp : passTestRegMatch line = false) (hs : testRegMatch line = false) :
    classify line = .errorOrFail := by
  have hor : (searchCI (strCodes ("error")) line ||
      searchCI (strCodes ("fail")) line) = true := by
    rcases h with h | h <;> simp [h]
  simp [classify, hp, hs, hor]

theorem errorFailWinsWhenUnanchoredWitness :
    classify (strCodes ("ERROR: sensor fail")) = .errorOrFail :=
  errorFailWinsWhenUnanchored (strCodes ("ERROR: sensor fail"))
    (Or.inl (by decide)) (by decide) (by decide)

/-- Claim C3 is false as stated: with the byte `a` read at time 5 and the
next read returning empty at time 700 (silence longer than 600 seconds),
the reader yields `aSerial Read Timeout` — the sentinel text appended to
the partial line — not exactly the sentinel line.  The session still sets
the error flag and fails with exit code 7. -/
theorem timeoutSentinelCounterexample :
    readLine [ReadEvent.mk 5 (some 97), ReadEvent.mk 700 none] [] 0 =
      .timedOut (97 :: sentinel) ∧
    97 :: sentinel ≠ sentinel ∧
    outcomeCode (runSession 1 [ReadEvent.mk 5 (some 97), ReadEvent.mk 700 none]
      initState 0) = some 7 := by decide

/-- Claim C3 (amended): when the stream is silent for longer than the
600-second inactivity timeout, the reader terminates the current line
early, yielding the partial line with the sentinel text `Serial Read
Timeout` appended — exactly the sentinel line when no byte of the current
line had been read, as on a timeout at the first read of a line — the
error flag is set, the session loop terminates after classifying that one
line, the connection is closed, and the verdict is the failure exit
code 7. -/
theorem timeoutTerminatesSession :
    (∀ events line0 tLast l, readLine events line0 tLast = .timedOut l →
      ∃ pre, l = pre ++ sentinel) ∧
    (∀ (e : ReadEvent) rest tLast, e.t - tLast > 600 →
      readLine (e :: rest) [] tLast = .timedOut sentinel) ∧
    (∀ fuel events st tLast l, st.testRunning = true →
      readLine events [] tLast = .timedOut l →
      runSession (fuel + 1) events st tLast =
        .finished 7 (processLine (timeoutState st) l) [l] true ∧
      (processLine (timeoutState st) l).didError = true) := by
  refine ⟨readLine_timedOut_ends_sentinel, ?_, ?_⟩
  · intro e rest tLast h
    exact readLine_timeout_first e rest tLast h
  · intro fuel events st tLast l hr ht
    exact runSession_timeout fuel events st tLast l hr ht

theorem timeoutTerminatesSessionWitness :
    runSession 1 [ReadEvent.mk 601 none] initState 0 =
      .finished 7 (processLine (timeoutState initState) sentinel) [sentinel] true :=
  (timeoutTerminatesSession.2.2 0 [ReadEvent.mk 601 none] initState 0 sentinel
    (by decide) (by decide)).1

/-- Claim C4: an ErrorOrFail line does not stop the session — it sets the
error flag, leaves detailsPending (`testDetails`) unchanged and leaves the
loop condition (`testRunning`) unchanged, so the loop keeps reading until a
Completion line or a timeout clears `testRunning`; and a finished session
returns exit code 7 exactly when the error flag is set at session end, and
0 otherwise. -/
theorem errorLineContinuesSession :
    (∀ st l, classify l = .errorOrFail →
      (processLine st l).didError = true ∧
      (processLine st l).testDetails = st.testDetails ∧
      (processLine st l).testRunning = st.testRunning) ∧
    (∀ fuel events st tLast c fin ls cl,
      runSession fuel events st tLast = .finished c fin ls cl →
      c = (if fin.didError = true then 7 else 0)) :=
  ⟨processLine_error_effect, fun fuel events st tLast => runSession_code fuel events st tLast⟩

theorem errorLineContinuesSessionWitness :
    (processLine initState (strCodes ("ERROR: sensor fail"))).didError = true ∧
    (processLine initState (strCodes ("ERROR: sensor fail"))).testRunning = true := by
  refine ⟨(errorLineContinuesSession.1 initState _ (by decide)).1, ?_⟩
  rw [(errorLineContinuesSession.1 initState _ (by decide)).2.2]
  rfl

/-- Claim C5: feeding the four example lines through the session yields a
success verdict — no error observed and exit code 0 — and detailsPending
(`testDetails`) after processing each line is, in order, true, true,
false, false. -/
theorem fourLineSessionExample :
    outcomeCode (runSession 5 (eventsOfLines demoLines) initState 0) = some 0 ∧
    outcomeLines (runSession 5 (eventsOfLines demoLines) initState 0) = some demoLines ∧
    (processLines initState demoLines).didError = false ∧
    (List.range 4).map
      (fun i => (processLines initState (demoLines.take (i + 1))).testDetails) =
      [true, true, false, false] := by decide

/-- Claim C6: the error flag starts false, and it is monotone within a
session — once `processLine` has set it, no later line resets it. -/
theorem errorObservedMonotone :
    initState.didError = false ∧
    (∀ st l, st.didError = true → (processLine st l).didError = true) ∧
    (∀ st lines, st.didError = true → (processLines st lines).didError = true) := by
  refine ⟨rfl, ?_, ?_⟩
  · intro st l h
    rw [processLine_didError, h]
    rfl
  · intro st lines h
    exact processLines_didError_mono lines st h

theorem errorObservedMonotoneWitness :
    (processLines { initState with didError := true } demoLines).didError = true :=
  errorObservedMonotone.2.2 { initState with didError := true } demoLines rfl

/-- Claim C7: opening the port is retried up to 10 attempts with one
`time.sleep(1)` backoff between consecutive attempts; a `PermissionError`
fails fast — exit code 9, no retry, no backoff; after the tenth failed
attempt the loop reports "could not open" and returns exit code 8, having
slept 9 times between the 10 attempts. -/
theorem connectionRetryPolicy :
    (∀ rest, openSerial (.permDenied :: rest) = .failed 9 0) ∧
    (∀ rest, openSerial (List.replicate 10 .otherFail ++ rest) = .failed 8 9) ∧
    (∀ pre rest, pre.length < 10 → (∀ o ∈ pre, o = .otherFail) →
      openSerial (pre ++ .success :: rest) = .opened pre.length) := by
  refine ⟨fun rest => rfl, fun rest => rfl, fun pre rest hlen hall => ?_⟩
  have h := openLoop_skip_failures pre 1 0 rest hall (by omega)
  simpa [openSerial] using h

theorem connectionRetryPolicyWitness :
    openSerial ([.otherFail, .otherFail] ++ .success :: []) = .opened 2 :=
  connectionRetryPolicy.2.2 [.otherFail, .otherFail] [] (by decide) (by decide)

/-- Claim C8 states the intended behaviour, but the code drops the flag:
`main` executes `baudRate = args.baud` without a `global` declaration, so
the assignment binds a function-local name and the module-level `baudRate`
read by `readSerialData` stays 115200; the port is always opened at
115200, whatever `--baud` was given. -/
theorem baudFlagIgnored :
    sessionBaud 9600 = 115200 ∧ sessionBaud 9600 ≠ 9600 ∧
    (∀ b, sessionBaud b = 115200) :=
  ⟨rfl, by decide, fun _ => rfl⟩

/-- Claim C9 is false as stated: a session that reached an open connection
and then reads the undecodable byte 200 propagates the decode exception
out of `readSerialData` without running `ser.close()` — the decode-error
exit path does not close the connection. -/
theorem decodeErrorLeavesPortOpen :
    runSession 1 [ReadEvent.mk 0 (some 200)] initState 0 =
      .decodeFailed 200 false := by decide

/-- Claim C9 (amended): the connection is closed on every normal exit path
of the session loop — Completion and inactivity timeout alike — but on a
fatal decode error the exception propagates without closing it. -/
theorem sessionCloseDiscipline :
    (∀ fuel events st tLast c fin ls cl,
      runSession fuel events st tLast = .finished c fin ls cl → cl = true) ∧
    (∀ fuel events st tLast v cl,
      runSession fuel events st tLast = .decodeFailed v cl → cl = false) := by
  constructor
  · intro fuel events st tLast
    exact (runSession_closed fuel events st tLast).1
  · intro fuel events st tLast
    exact (runSession_closed fuel events st tLast).2

theorem sessionCloseDisciplineWitness :
    runSession 5 (eventsOfLines demoLines) initState 0 =
      .finished 0 (processLines initState demoLines) demoLines true ∧
    (true : Bool) = true :=
  ⟨by decide, sessionCloseDiscipline.1 5 (eventsOfLines demoLines) initState 0 0
    (processLines initState demoLines) demoLines true (by decide)⟩

/-- Claim C10: the accumulated detail text only grows — the clearing step
meant to empty the buffer assigns the misspelt `testDetailsText`, so the
real buffer `testDetailsTxt` after any number of processed lines is a
prefix of its value after every later line; the clearing branch empties
only the dead variable and leaves the real buffer untouched. -/
theorem detailBufferOnlyGrows :
    (∀ st l, ∃ t2, (processLine st l).testDetailsTxt = st.testDetailsTxt ++ t2) ∧
    (∀ (st : SessionState) (lines : List (List Nat)) (i j : Nat), i ≤ j →
      ∃ t2, (processLines st (lines.take j)).testDetailsTxt =
        (processLines st (lines.take i)).testDetailsTxt ++ t2) ∧
    (∀ st l, classify l = .testPass → st.testDetailsPrev = true →
      (processLine st l).testDetailsText = [] ∧
      (processLine st l).testDetailsTxt = st.testDetailsTxt) := by
  refine ⟨processLine_txt_grows, ?_, ?_⟩
  · intro st lines i j hij
    have hsplit : lines.take j = lines.take i ++ ((lines.drop i).take (j - i)) := by
      have hj : i + (j - i) = j := by omega
      conv_lhs => rw [← hj]
      rw [List.take_add]
    rw [hsplit, processLines_append]
    exact processLines_txt_grows _ _
  · intro st l hcl hprev
    constructor <;>
      simp [processLine, hcl, hprev, apply_ite (SessionState.testDetailsText),
        apply_ite (SessionState.testDetailsTxt)]

theorem detailBufferOnlyGrowsWitness :
    ∃ t2, (processLines initState (demoLines.take 3)).testDetailsTxt =
      (processLines initState (demoLines.take 1)).testDetailsTxt ++ t2 :=
  detailBufferOnlyGrows.2.1 initState demoLines 1 3 (by omega)
